import Mathlib

/-!
Verification development for the instant-motion-tracking anchor pipeline.

Floating-point values from the C++ source are modelled as rationals and
sticker ids as integers.  Each definition below is a direct translation of
one function of the repository; the file then proves or refutes the
specified properties about those definitions.
-/

namespace InstantMotionTracking

/-- Anchor struct from transformations.h: normalized sticker coordinates,
with z the scale factor centered at 1.0. -/
structure Anchor where
  x : ℚ
  y : ℚ
  z : ℚ
  sticker_id : ℤ
deriving DecidableEq

/-- TimedBoxProto as consumed and produced by the anchor managers: a
normalized bounding box tagged with the sticker id (timestamps dropped). -/
structure TimedBox where
  left : ℚ
  right : ℚ
  top : ℚ
  bottom : ℚ
  id : ℤ
deriving DecidableEq

/-- UserScaling struct from transformations.h. -/
structure UserScaling where
  scale_factor : ℚ
  sticker_id : ℤ
deriving DecidableEq

/-- UserRotation struct from transformations.h. -/
structure UserRotation where
  rotation_radians : ℚ
  sticker_id : ℤ
deriving DecidableEq

/-- kBoxEdgeSize = 0.2f in tracked_anchor_manager_calculator.cc
(sentinel variant): edge size of a freshly started tracking box. -/
def kBoxEdgeSize : ℚ := 1/5

/-- kInitialZ = -10.0f: base z value in OpenGL space. -/
def kInitialZ : ℚ := -10

/-- box_h_w_ = 0.15 in the subgraph variant of
tracked_anchor_manager_calculator.cc. -/
def box_h_w : ℚ := 3/20

/-- The square tracking box the sentinel-variant Process emits, centered on
(x, y) with edge kBoxEdgeSize (left = x - kBoxEdgeSize * 0.5f, etc.). -/
def trackingBox (x y : ℚ) (i : ℤ) : TimedBox :=
  ⟨x - kBoxEdgeSize / 2, x + kBoxEdgeSize / 2,
   y - kBoxEdgeSize / 2, y + kBoxEdgeSize / 2, i⟩

/-- The for-loop over box_list.box() with break: first box whose id matches. -/
def findBox : List TimedBox → ℤ → Option TimedBox
  | [], _ => none
  | b :: rest, i => if b.id = i then some b else findBox rest i

/-- The for-loop over an anchor list with break: first anchor whose
sticker_id matches. -/
def findAnchor : List Anchor → ℤ → Option Anchor
  | [], _ => none
  | a :: rest, i => if a.sticker_id = i then some a else findAnchor rest i

/-- The anchor_exists scan of TrackedAnchorManagerCalculator::Process:
whether some anchor of the list carries the given sticker id. -/
def anchorExists : List Anchor → ℤ → Bool
  | [], _ => false
  | a :: rest, i => if a.sticker_id = i then true else anchorExists rest i

/-- The orphan-cleanup loop: for every input box whose id matches no anchor
of the list, emit a cancel packet with that id, in box-list order. -/
def cancelOrphans : List TimedBox → List Anchor → List ℤ
  | [], _ => []
  | b :: rest, current =>
    if anchorExists current b.id then cancelOrphans rest current
    else b.id :: cancelOrphans rest current

/-- Result of the per-sticker body of the sentinel-variant Process loop:
the emitted anchor, the boxes appended to pos_boxes, and the cancel ids. -/
structure AnchorResult where
  anchor : Anchor
  startBoxes : List TimedBox
  cancels : List ℤ
deriving DecidableEq

/-- Body of the per-anchor loop of TrackedAnchorManagerCalculator::Process
(sentinel variant, src/unnamed/part_000 lines 219-283).  Reset stickers get
a cancel, a fresh tracking box and z = 1.0; otherwise the anchor is updated
from the first matching tracker box; otherwise it falls back to the
previous-frame anchor (with a new box and z reset to 1.0); otherwise it
passes through unchanged. -/
def processAnchor (sentinel : ℤ) (boxes : List TimedBox) (prev : List Anchor)
    (a : Anchor) : AnchorResult :=
  if sentinel = a.sticker_id then
    ⟨{ a with z := 1 }, [trackingBox a.x a.y a.sticker_id], [a.sticker_id]⟩
  else
    match findBox boxes a.sticker_id with
    | some b =>
      ⟨⟨(b.left + b.right) / 2, (b.top + b.bottom) / 2,
        kBoxEdgeSize / (b.right - b.left), a.sticker_id⟩, [], []⟩
    | none =>
      match findAnchor prev a.sticker_id with
      | some p =>
        ⟨⟨p.x, p.y, 1, p.sticker_id⟩,
         [trackingBox p.x p.y p.sticker_id], []⟩
      | none => ⟨a, [], []⟩

/-- Everything one Process call emits: tracked_scaled_anchor_data (also the
next previous_anchor_data), the pos_boxes list, and the cancel-id packets. -/
structure ProcessOutput where
  anchors : List Anchor
  startBoxes : List TimedBox
  cancels : List ℤ
deriving DecidableEq

/-- The per-anchor loop of the sentinel-variant Process over the whole
current sticker list, concatenating emissions in order. -/
def processAnchors (sentinel : ℤ) (boxes : List TimedBox) (prev : List Anchor) :
    List Anchor → ProcessOutput
  | [] => ⟨[], [], []⟩
  | a :: rest =>
    let r := processAnchor sentinel boxes prev a
    let o := processAnchors sentinel boxes prev rest
    ⟨r.anchor :: o.anchors, r.startBoxes ++ o.startBoxes, r.cancels ++ o.cancels⟩

/-- One full frame of TrackedAnchorManagerCalculator::Process (sentinel
variant): orphan cleanup first, then the per-sticker loop. -/
def process (sentinel : ℤ) (boxes : List TimedBox) (prev current : List Anchor) :
    ProcessOutput :=
  let o := processAnchors sentinel boxes prev current
  ⟨o.anchors, o.startBoxes, cancelOrphans boxes current ++ o.cancels⟩

/-- Modelled from the spec: the external box tracker is out of scope of the
repository, so its live-region set is modelled as the spec describes the
start and cancel commands acting on it: after a frame the live ids are the
previous live ids minus the cancelled ids, plus the ids of the boxes just
started. -/
def liveAfter (live : List ℤ) (out : ProcessOutput) : List ℤ :=
  live.filter (fun i => decide (i ∉ out.cancels)) ++ out.startBoxes.map TimedBox.id

/-- The inner update loop of the subgraph-variant Process over the whole
tracker box list (no break: a later matching box overwrites an earlier one),
with box_h_w the edge constant. -/
def subgraphTrackerUpdate (i : ℤ) : List TimedBox → Anchor → Anchor
  | [], a => a
  | b :: rest, a =>
    if b.id = i then
      subgraphTrackerUpdate i rest
        ⟨(b.left + b.right) / 2, (b.top + b.bottom) / 2,
         box_h_w / (b.right - b.left), a.sticker_id⟩
    else subgraphTrackerUpdate i rest a

/-- The square tracking box the subgraph-variant Process emits, centered on
(x, y) with edge box_h_w. -/
def subgraphTrackingBox (x y : ℚ) (i : ℤ) : TimedBox :=
  ⟨x - box_h_w / 2, x + box_h_w / 2, y - box_h_w / 2, y + box_h_w / 2, i⟩

/-- Body of the matched previous/current pair in the subgraph-variant
Process: a repositioned anchor gets a new tracking box and z = 1.0,
otherwise the anchor is updated from the tracker box list. -/
def subgraphStep (boxes : List TimedBox) (p c : Anchor) : Anchor × List TimedBox :=
  if p.x ≠ c.x ∨ p.y ≠ c.y then
    ({ c with z := 1 }, [subgraphTrackingBox c.x c.y c.sticker_id])
  else
    (subgraphTrackerUpdate c.sticker_id boxes c, [])

/-- The outer loop of the subgraph-variant Process: iterate the previous
anchor list, pair each entry with the first current anchor of the same id
(skipping entries with no match), and collect emissions in order. -/
def subgraphProcessPrev (boxes : List TimedBox) (current : List Anchor) :
    List Anchor → List Anchor × List TimedBox
  | [] => ([], [])
  | p :: rest =>
    let o := subgraphProcessPrev boxes current rest
    match findAnchor current p.sticker_id with
    | some c =>
      let r := subgraphStep boxes p c
      (r.1 :: o.1, r.2 ++ o.2)
    | none => o

/-- One full frame of the subgraph-variant
TrackedAnchorManagerCalculator::Process: the pairing loop, then orphan
cancels computed against the produced tracked anchors.  The state update of
the calculator stores the raw current input list as the next
previous_anchor_data_. -/
def subgraphProcess (boxes : List TimedBox) (prev current : List Anchor) :
    ProcessOutput :=
  let o := subgraphProcessPrev boxes current prev
  ⟨o.1, o.2, cancelOrphans boxes o.1⟩

/-- GetUserScaler of MatricesManagerCalculator: first scaling entry whose
sticker id matches.  The C++ function is non-void yet has no return
statement after the loop, so a missing id makes control fall off the end
(undefined behavior); that case is modelled as none. -/
def getUserScaler : List UserScaling → ℤ → Option ℚ
  | [], _ => none
  | s :: rest, i =>
    if s.sticker_id = i then some s.scale_factor else getUserScaler rest i

/-- GetUserRotation of MatricesManagerCalculator: first rotation entry whose
sticker id matches; like GetUserScaler it falls off the end (undefined
behavior, modelled as none) when no entry matches. -/
def getUserRotation : List UserRotation → ℤ → Option ℚ
  | [], _ => none
  | r :: rest, i =>
    if r.sticker_id = i then some r.rotation_radians else getUserRotation rest i

/-- Camera-space translation vector. -/
structure Vec3 where
  x : ℚ
  y : ℚ
  z : ℚ
deriving DecidableEq

/-- GenerateAnchorVector (part_000 lines 116-139): project the anchor into
OpenGL space.  The session constant tan(vertical_fov_radians * 0.5) is
transcendental, so the precomputed tangent value t is passed in directly;
a is the aspect ratio side packet. -/
def generateAnchorVector (t a : ℚ) (anchor : Anchor) : Vec3 :=
  let z := kInitialZ * anchor.z
  let yHalfRange := z * t
  let xHalfRange := yHalfRange * a
  ⟨-2 * anchor.x * xHalfRange + xHalfRange,
   -2 * anchor.y * yHalfRange + yHalfRange, z⟩

/-- A 4x4 model matrix, indexed by row then column (entries beyond index 3
are unused). -/
abbrev Matrix4 : Type := ℕ → ℕ → ℚ

/-- GenerateEigenModelMatrix (column-major variants): starting from the
default-constructed Eigen matrix, whose entries are uninitialized memory
(modelled by the arbitrary matrix uninit), write the translation vector into
the top right corner, the rotation submatrix into the top left 3x3 corner,
and 1.0 into entry (3,3).  Entries (3,0), (3,1) and (3,2) are never
written. -/
def generateEigenModelMatrix (uninit : Matrix4) (t : Vec3)
    (r : ℕ → ℕ → ℚ) : Matrix4 :=
  fun i j =>
    if i = 3 ∧ j = 3 then 1
    else if i ≤ 2 ∧ j = 3 then (if i = 0 then t.x else if i = 1 then t.y else t.z)
    else if i ≤ 2 ∧ j ≤ 2 then r i j
    else uninit i j

end InstantMotionTracking

namespace InstantMotionTracking

theorem findAnchor_id {l : List Anchor} {i : ℤ} {p : Anchor}
    (h : findAnchor l i = some p) : p.sticker_id = i := by
  induction l with
  | nil => simp [findAnchor] at h
  | cons a rest ih =>
    by_cases hc : a.sticker_id = i
    · simp [findAnchor, hc] at h
      exact h ▸ hc
    · simp only [findAnchor, if_neg hc] at h
      exact ih h

theorem anchorExists_false_iff {l : List Anchor} {i : ℤ} :
    anchorExists l i = false ↔ ∀ a ∈ l, a.sticker_id ≠ i := by
  induction l with
  | nil => simp [anchorExists]
  | cons a rest ih =>
    by_cases hc : a.sticker_id = i
    · simp [anchorExists, hc]
    · simp [anchorExists, hc, ih]

theorem findAnchor_none_iff {l : List Anchor} {i : ℤ} :
    findAnchor l i = none ↔ anchorExists l i = false := by
  induction l with
  | nil => simp [findAnchor, anchorExists]
  | cons a rest ih =>
    by_cases hc : a.sticker_id = i
    · simp [findAnchor, anchorExists, hc]
    · simp [findAnchor, anchorExists, hc, ih]

theorem mem_cancelOrphans {boxes : List TimedBox} {current : List Anchor} {b : TimedBox}
    (hb : b ∈ boxes) (h : anchorExists current b.id = false) :
    b.id ∈ cancelOrphans boxes current := by
  induction boxes with
  | nil => simp at hb
  | cons x rest ih =>
    rcases List.mem_cons.mp hb with rfl | hb2
    · simp [cancelOrphans, h]
    · by_cases hx : anchorExists current x.id
      · simpa [cancelOrphans, hx] using ih hb2
      · simp only [cancelOrphans, Bool.not_eq_true] at hx ⊢
        rw [if_neg (by simp [hx])]
        exact List.mem_cons_of_mem _ (ih hb2)

theorem processAnchors_anchors (s : ℤ) (boxes : List TimedBox) (prev : List Anchor)
    (current : List Anchor) :
    (processAnchors s boxes prev current).anchors
      = current.map (fun a => (processAnchor s boxes prev a).anchor) := by
  induction current with
  | nil => rfl
  | cons a rest ih => simp [processAnchors, ih]

theorem mem_processAnchors_startBoxes {s : ℤ} {boxes : List TimedBox}
    {prev current : List Anchor} {a : Anchor} {b : TimedBox}
    (ha : a ∈ current) (hb : b ∈ (processAnchor s boxes prev a).startBoxes) :
    b ∈ (processAnchors s boxes prev current).startBoxes := by
  induction current with
  | nil => simp at ha
  | cons x rest ih =>
    rcases List.mem_cons.mp ha with rfl | ha2
    · simp [processAnchors]
      exact Or.inl hb
    · simp [processAnchors]
      exact Or.inr (ih ha2)

theorem processAnchors_startBoxes_mem {s : ℤ} {boxes : List TimedBox}
    {prev current : List Anchor} {b : TimedBox}
    (hb : b ∈ (processAnchors s boxes prev current).startBoxes) :
    ∃ a ∈ current, b ∈ (processAnchor s boxes prev a).startBoxes := by
  induction current with
  | nil => simp [processAnchors] at hb
  | cons x rest ih =>
    simp only [processAnchors, List.mem_append] at hb
    rcases hb with hb1 | hb2
    · exact ⟨x, by simp, hb1⟩
    · rcases ih hb2 with ⟨a, ha, hba⟩
      exact ⟨a, by simp [ha], hba⟩

theorem processAnchor_startBox_id {s : ℤ} {boxes : List TimedBox}
    {prev : List Anchor} {a : Anchor} {b : TimedBox}
    (hb : b ∈ (processAnchor s boxes prev a).startBoxes) :
    b.id = a.sticker_id := by
  unfold processAnchor at hb
  by_cases hs : s = a.sticker_id
  · simp [hs] at hb
    simp [hb, trackingBox]
  · simp only [if_neg hs] at hb
    cases hfb : findBox boxes a.sticker_id with
    | some bx => simp [hfb] at hb
    | none =>
      simp only [hfb] at hb
      cases hfa : findAnchor prev a.sticker_id with
      | some p =>
        simp [hfa] at hb
        rw [hb]
        simpa [trackingBox] using findAnchor_id hfa
      | none => simp [hfa] at hb

theorem mem_processAnchors_cancels {s : ℤ} {boxes : List TimedBox}
    {prev current : List Anchor} {a : Anchor} {c : ℤ}
    (ha : a ∈ current) (hc : c ∈ (processAnchor s boxes prev a).cancels) :
    c ∈ (processAnchors s boxes prev current).cancels := by
  induction current with
  | nil => simp at ha
  | cons x rest ih =>
    rcases List.mem_cons.mp ha with rfl | ha2
    · simp [processAnchors]
      exact Or.inl hc
    · simp [processAnchors]
      exact Or.inr (ih ha2)

theorem findBox_append_first {l1 l2 : List TimedBox} {b : TimedBox} {i : ℤ}
    (h1 : ∀ x ∈ l1, x.id ≠ i) (hb : b.id = i) :
    findBox (l1 ++ b :: l2) i = some b := by
  induction l1 with
  | nil => simp [findBox, hb]
  | cons x rest ih =>
    have hx : x.id ≠ i := h1 x (by simp)
    simp only [List.cons_append, findBox, if_neg hx]
    exact ih fun y hy => h1 y (by simp [hy])

theorem findBox_append_congr {l1 l2 : List TimedBox} {b c : TimedBox} {i j : ℤ}
    (hb : b.id = i) (hc : c.id = i) (hj : j ≠ i) :
    findBox (l1 ++ b :: l2) j = findBox (l1 ++ c :: l2) j := by
  induction l1 with
  | nil =>
    have hbj : b.id ≠ j := fun h => hj (h ▸ hb)
    have hcj : c.id ≠ j := fun h => hj (h ▸ hc)
    simp [findBox, hbj, hcj]
  | cons x rest ih =>
    by_cases hx : x.id = j
    · simp [findBox, hx]
    · simp only [List.cons_append, findBox, if_neg hx]
      exact ih

theorem subgraphTrackerUpdate_id (i : ℤ) (boxes : List TimedBox) (a : Anchor) :
    (subgraphTrackerUpdate i boxes a).sticker_id = a.sticker_id := by
  induction boxes generalizing a with
  | nil => rfl
  | cons b rest ih =>
    by_cases hb : b.id = i
    · simp [subgraphTrackerUpdate, hb, ih]
    · simp [subgraphTrackerUpdate, hb, ih]

theorem subgraphStep_id (boxes : List TimedBox) (p c : Anchor) :
    (subgraphStep boxes p c).1.sticker_id = c.sticker_id := by
  unfold subgraphStep
  by_cases h : p.x ≠ c.x ∨ p.y ≠ c.y
  · simp [h]
  · simp [h, subgraphTrackerUpdate_id]

theorem subgraphStep_box_id {boxes : List TimedBox} {p c : Anchor} {b : TimedBox}
    (hb : b ∈ (subgraphStep boxes p c).2) : b.id = c.sticker_id := by
  unfold subgraphStep at hb
  by_cases h : p.x ≠ c.x ∨ p.y ≠ c.y
  · simp [h] at hb
    simp [hb, subgraphTrackingBox]
  · simp [h] at hb

theorem subgraphProcessPrev_ids (boxes : List TimedBox) (current prev : List Anchor) :
    (subgraphProcessPrev boxes current prev).1.map Anchor.sticker_id
      = (prev.filter (fun p => anchorExists current p.sticker_id)).map Anchor.sticker_id := by
  induction prev with
  | nil => rfl
  | cons p rest ih =>
    cases hfa : findAnchor current p.sticker_id with
    | some c =>
      have hex : anchorExists current p.sticker_id = true := by
        cases hae : anchorExists current p.sticker_id with
        | true => rfl
        | false => simp [findAnchor_none_iff.mpr hae] at hfa
      simp [subgraphProcessPrev, hfa, List.filter_cons, hex, subgraphStep_id,
        findAnchor_id hfa, ih]
    | none =>
      have hex : anchorExists current p.sticker_id = false := by
        by_contra h
        have := findAnchor_none_iff.mp hfa
        simp [this] at h
      simp [subgraphProcessPrev, hfa, List.filter_cons, hex, ih]

theorem subgraphProcessPrev_box_ids {boxes : List TimedBox} {current prev : List Anchor}
    {b : TimedBox} (hb : b ∈ (subgraphProcessPrev boxes current prev).2) :
    ∃ p ∈ prev, b.id = p.sticker_id := by
  induction prev with
  | nil => simp [subgraphProcessPrev] at hb
  | cons p rest ih =>
    cases hfa : findAnchor current p.sticker_id with
    | some c =>
      simp only [subgraphProcessPrev, hfa, List.mem_append] at hb
      rcases hb with hb1 | hb2
      · refine ⟨p, by simp, ?_⟩
        rw [subgraphStep_box_id hb1, findAnchor_id hfa]
      · rcases ih hb2 with ⟨q, hq, hbq⟩
        exact ⟨q, by simp [hq], hbq⟩
    | none =>
      simp only [subgraphProcessPrev, hfa] at hb
      rcases ih hb with ⟨q, hq, hbq⟩
      exact ⟨q, by simp [hq], hbq⟩

end InstantMotionTracking

namespace InstantMotionTracking

theorem getUserScaler_none {scalings : List UserScaling} {i : ℤ}
    (hs : ∀ s ∈ scalings, s.sticker_id ≠ i) : getUserScaler scalings i = none := by
  induction scalings with
  | nil => rfl
  | cons x rest ih =>
    have hx : x.sticker_id ≠ i := hs x (by simp)
    simp only [getUserScaler, if_neg hx]
    exact ih fun y hy => hs y (by simp [hy])

theorem getUserRotation_none {rotations : List UserRotation} {i : ℤ}
    (hr : ∀ r ∈ rotations, r.sticker_id ≠ i) : getUserRotation rotations i = none := by
  induction rotations with
  | nil => rfl
  | cons x rest ih =>
    have hx : x.sticker_id ≠ i := hr x (by simp)
    simp only [getUserRotation, if_neg hx]
    exact ih fun y hy => hr y (by simp [hy])

/-- Claim C1, counterexample: with the single fresh sticker id 1 at
(0.25, 0.25), no tracked regions, no previous anchors and reset sentinel
-1, the Process step emits no start-tracking box at all, contradicting the
claimed start_tracking(id 1, box 0.15..0.35). -/
theorem c1_fresh_sticker_no_start_box :
    (process (-1) [] [] [⟨1/4, 1/4, 1, 1⟩]).startBoxes = [] := by
  simp [process, processAnchors, processAnchor, findBox, findAnchor, cancelOrphans]

/-- Claim C1, amended: the claimed emissions happen when the reset sentinel
carries the sticker id 1 (how a newly placed sticker is signalled): one
step then emits a cancel for id 1, the start-tracking box
left 0.15, right 0.35, top 0.15, bottom 0.35 (edge 0.2 centered on
0.25, 0.25), and the anchor (id 1, x 0.25, y 0.25, scale_factor 1.0). -/
theorem c1_sentinel_start_box :
    process 1 [] [] [⟨1/4, 1/4, 1, 1⟩]
      = ⟨[⟨1/4, 1/4, 1, 1⟩], [⟨3/20, 7/20, 3/20, 7/20, 1⟩], [1]⟩ := by
  simp [process, processAnchors, processAnchor, trackingBox, kBoxEdgeSize, cancelOrphans]
  norm_num

/-- Claim C2, counterexample: a fresh sticker id 1 with sentinel -1 never
receives a start command, so the live tracking-region set stays empty while
the sticker list contains id 1 — the claimed equality of live-region ids
and sticker ids fails (an id can be missing). -/
theorem c2_live_set_mismatch :
    ((1 : ℤ) ∈ ([⟨1/4, 1/4, 1, 1⟩] : List Anchor).map Anchor.sticker_id)
    ∧ liveAfter ([] : List ℤ) (process (-1) [] [] [⟨1/4, 1/4, 1, 1⟩]) = [] := by
  constructor
  · simp
  · simp [liveAfter, process, processAnchors, processAnchor, findBox, findAnchor,
      cancelOrphans]

/-- Claim C2, amended: every tracker-feedback box whose id matches no
current sticker gets a cancel command carrying exactly that id, and the
live-region set after the frame (feedback ids minus cancels plus started
ids) contains only current sticker ids — no orphans.  The claimed set
equality does not hold, since an id can be missing from the live set. -/
theorem c2_orphan_cancels (s : ℤ) (boxes : List TimedBox) (prev current : List Anchor) :
    (∀ b ∈ boxes, (∀ a ∈ current, a.sticker_id ≠ b.id) →
        b.id ∈ (process s boxes prev current).cancels)
    ∧ (∀ i ∈ liveAfter (boxes.map TimedBox.id) (process s boxes prev current),
        ∃ a ∈ current, a.sticker_id = i) := by
  constructor
  · intro b hb hno
    have hfalse : anchorExists current b.id = false := anchorExists_false_iff.mpr hno
    have h2 := mem_cancelOrphans hb hfalse
    simp only [process, List.mem_append]
    exact Or.inl h2
  · intro i hi
    simp only [liveAfter, List.mem_append] at hi
    rcases hi with hi1 | hi2
    · rw [List.mem_filter] at hi1
      obtain ⟨him, hnc⟩ := hi1
      rw [decide_eq_true_eq] at hnc
      by_contra hno
      push_neg at hno
      rcases List.mem_map.mp him with ⟨b, hbmem, rfl⟩
      have hfalse : anchorExists current b.id = false :=
        anchorExists_false_iff.mpr hno
      have hc := mem_cancelOrphans hbmem hfalse
      exact hnc (by simp only [process, List.mem_append]; exact Or.inl hc)
    · rcases List.mem_map.mp hi2 with ⟨b, hbmem, rfl⟩
      rcases processAnchors_startBoxes_mem hbmem with ⟨a, ha, hba⟩
      exact ⟨a, ha, (processAnchor_startBox_id hba).symm⟩

/-- Claim C2, witness: a feedback box with id 9 and no matching sticker is
cancelled. -/
theorem c2_orphan_cancels_witness :
    (9 : ℤ) ∈ (process (-1) [⟨0, 1/5, 0, 1/5, 9⟩] [] [⟨1/4, 1/4, 1, 1⟩]).cancels :=
  (c2_orphan_cancels (-1) [⟨0, 1/5, 0, 1/5, 9⟩] [] [⟨1/4, 1/4, 1, 1⟩]).1
    ⟨0, 1/5, 0, 1/5, 9⟩ (by simp) (by norm_num)

/-- Claim C3: a sticker not being reset whose id matches a tracker-feedback
box gets the anchor x = (left + right) / 2, y = (top + bottom) / 2 and
scale factor z = kBoxEdgeSize / (right - left), with kBoxEdgeSize the fixed
tracking-box edge constant 0.2. -/
theorem c3_tracked_update (s : ℤ) (boxes : List TimedBox) (prev : List Anchor)
    (a : Anchor) (b : TimedBox)
    (hs : s ≠ a.sticker_id)
    (hb : findBox boxes a.sticker_id = some b) :
    (processAnchor s boxes prev a).anchor
      = ⟨(b.left + b.right) / 2, (b.top + b.bottom) / 2,
         kBoxEdgeSize / (b.right - b.left), a.sticker_id⟩ := by
  simp [processAnchor, hs, hb]

/-- Claim C3, witness: box (0.1, 0.3, 0.1, 0.3) for sticker 1 yields anchor
(0.2, 0.2) with scale factor 0.2 / 0.2 = 1. -/
theorem c3_tracked_update_witness :
    (processAnchor (-1) [⟨1/10, 3/10, 1/10, 3/10, 1⟩] [] ⟨1/2, 1/2, 1, 1⟩).anchor
      = ⟨1/5, 1/5, 1, 1⟩ := by
  have h := c3_tracked_update (-1) [⟨1/10, 3/10, 1/10, 3/10, 1⟩] [] ⟨1/2, 1/2, 1, 1⟩
      ⟨1/10, 3/10, 1/10, 3/10, 1⟩ (by decide) (by simp [findBox])
  rw [h]
  norm_num [kBoxEdgeSize]

/-- Claim C4, counterexample: previous anchor of sticker 1 has scale factor
2; when the tracker omits the region, the fallback emits scale factor 1.0,
not the claimed preserved value 2. -/
theorem c4_scale_not_preserved :
    (process (-1) [] [⟨1/2, 1/2, 2, 1⟩] [⟨3/10, 3/10, 1, 1⟩]).anchors
        = [⟨1/2, 1/2, 1, 1⟩]
    ∧ ((1 : ℚ) ≠ 2) := by
  constructor
  · simp [process, processAnchors, processAnchor, findBox, findAnchor]
  · norm_num

/-- Claim C4, amended: a sticker that is not being reset and has no
matching tracker-feedback box falls back to the previous-frame anchor of
the same id, keeping its x and y but resetting the scale factor to 1.0
(not preserving it); a start-tracking box centered on the previous position
is re-emitted, and the sticker is never dropped (one output anchor per
input sticker). -/
theorem c4_fallback_prev_anchor (s : ℤ) (boxes : List TimedBox)
    (prev current : List Anchor) (a p : Anchor)
    (ha : a ∈ current)
    (hs : s ≠ a.sticker_id)
    (hnb : findBox boxes a.sticker_id = none)
    (hp : findAnchor prev a.sticker_id = some p) :
    (processAnchor s boxes prev a
        = ⟨⟨p.x, p.y, 1, p.sticker_id⟩, [trackingBox p.x p.y p.sticker_id], []⟩)
    ∧ (⟨p.x, p.y, 1, p.sticker_id⟩ : Anchor) ∈ (process s boxes prev current).anchors
    ∧ trackingBox p.x p.y p.sticker_id ∈ (process s boxes prev current).startBoxes
    ∧ (process s boxes prev current).anchors.length = current.length := by
  have heq : processAnchor s boxes prev a
      = ⟨⟨p.x, p.y, 1, p.sticker_id⟩, [trackingBox p.x p.y p.sticker_id], []⟩ := by
    simp [processAnchor, hs, hnb, hp]
  refine ⟨heq, ?_, ?_, ?_⟩
  · rw [show (process s boxes prev current).anchors = _ from
      processAnchors_anchors s boxes prev current]
    exact List.mem_map.mpr ⟨a, ha, by rw [heq]⟩
  · have hbx : trackingBox p.x p.y p.sticker_id ∈ (processAnchor s boxes prev a).startBoxes := by
      rw [heq]; simp
    exact mem_processAnchors_startBoxes ha hbx
  · rw [show (process s boxes prev current).anchors = _ from
      processAnchors_anchors s boxes prev current]
    simp

/-- Claim C4, witness: sticker 1 with previous anchor (0.5, 0.5, z = 2) and
empty feedback keeps x, y and resets z to 1, re-emitting its box. -/
theorem c4_fallback_prev_anchor_witness :
    (⟨1/2, 1/2, 1, 1⟩ : Anchor)
        ∈ (process (-1) [] [⟨1/2, 1/2, 2, 1⟩] [⟨3/10, 3/10, 1, 1⟩]).anchors
    ∧ trackingBox (1/2) (1/2) 1
        ∈ (process (-1) [] [⟨1/2, 1/2, 2, 1⟩] [⟨3/10, 3/10, 1, 1⟩]).startBoxes := by
  have h := c4_fallback_prev_anchor (-1) [] [⟨1/2, 1/2, 2, 1⟩] [⟨3/10, 3/10, 1, 1⟩]
      ⟨3/10, 3/10, 1, 1⟩ ⟨1/2, 1/2, 2, 1⟩ (by simp) (by decide) rfl (by simp [findAnchor])
  exact ⟨h.2.1, h.2.2.1⟩

/-- Claim C5: a sticker whose id equals the reset sentinel gets a cancel
command for its id, a start-tracking box of edge 0.2 centered on its
requested x, y, and this-frame anchor (x, y, scale factor 1.0); running a
second consecutive frame with the same sentinel and sticker (previous
anchors being the first-frame output) again yields scale factor 1.0. -/
theorem c5_reset_behavior (s : ℤ) (boxes boxes2 : List TimedBox)
    (prev current : List Anchor) (a : Anchor)
    (ha : a ∈ current) (hs : s = a.sticker_id) :
    (processAnchor s boxes prev a
        = ⟨⟨a.x, a.y, 1, a.sticker_id⟩, [trackingBox a.x a.y a.sticker_id], [a.sticker_id]⟩)
    ∧ a.sticker_id ∈ (process s boxes prev current).cancels
    ∧ trackingBox a.x a.y a.sticker_id ∈ (process s boxes prev current).startBoxes
    ∧ (⟨a.x, a.y, 1, a.sticker_id⟩ : Anchor) ∈ (process s boxes prev current).anchors
    ∧ (⟨a.x, a.y, 1, a.sticker_id⟩ : Anchor)
        ∈ (process s boxes2 (process s boxes prev current).anchors current).anchors := by
  have heq : ∀ (bs : List TimedBox) (pv : List Anchor), processAnchor s bs pv a
      = ⟨⟨a.x, a.y, 1, a.sticker_id⟩, [trackingBox a.x a.y a.sticker_id], [a.sticker_id]⟩ := by
    intro bs pv
    simp [processAnchor, hs]
  refine ⟨heq boxes prev, ?_, ?_, ?_, ?_⟩
  · have hc : a.sticker_id ∈ (processAnchor s boxes prev a).cancels := by
      rw [heq boxes prev]; simp
    have := mem_processAnchors_cancels ha hc
    simp only [process, List.mem_append]
    exact Or.inr this
  · have hbx : trackingBox a.x a.y a.sticker_id ∈ (processAnchor s boxes prev a).startBoxes := by
      rw [heq boxes prev]; simp
    exact mem_processAnchors_startBoxes ha hbx
  · rw [show (process s boxes prev current).anchors = _ from
      processAnchors_anchors s boxes prev current]
    exact List.mem_map.mpr ⟨a, ha, by rw [heq boxes prev]⟩
  · rw [show (process s boxes2 (process s boxes prev current).anchors current).anchors = _ from
      processAnchors_anchors s boxes2 (process s boxes prev current).anchors current]
    exact List.mem_map.mpr ⟨a, ha, by rw [heq boxes2 ((process s boxes prev current).anchors)]⟩

/-- Claim C5, witness: resetting sticker 1 at (0.25, 0.25) in two
consecutive frames yields the anchor with scale factor 1.0 in the second
frame as well. -/
theorem c5_reset_behavior_witness :
    (⟨1/4, 1/4, 1, 1⟩ : Anchor)
      ∈ (process 1 [] (process 1 [] [] [⟨1/4, 1/4, 1, 1⟩]).anchors [⟨1/4, 1/4, 1, 1⟩]).anchors :=
  (c5_reset_behavior 1 [] [] [] [⟨1/4, 1/4, 1, 1⟩] ⟨1/4, 1/4, 1, 1⟩ (by simp) rfl).2.2.2.2

/-- Claim C6: the user-transform lookups have no default — when no entry of
the scaling or rotation list carries the requested sticker id, control
falls off the end of the non-void C++ functions GetUserScaler and
GetUserRotation (undefined behavior, modelled as none); no identity value
(rotation 0, scale 1) is returned, contradicting the claimed recovery. -/
theorem c6_lookup_falls_off_end (scalings : List UserScaling)
    (rotations : List UserRotation) (i : ℤ)
    (hs : ∀ s ∈ scalings, s.sticker_id ≠ i)
    (hr : ∀ r ∈ rotations, r.sticker_id ≠ i) :
    getUserScaler scalings i = none ∧ getUserRotation rotations i = none :=
  ⟨getUserScaler_none hs, getUserRotation_none hr⟩

/-- Claim C6, witness: sticker id 1 absent from both per-frame lists. -/
theorem c6_lookup_falls_off_end_witness :
    getUserScaler [] 1 = none ∧ getUserRotation [] 1 = none :=
  c6_lookup_falls_off_end [] [] 1 (by simp) (by simp)

/-- Claim C7: for the anchor (0.5, 0.5, scale factor 1.0) the composed
model matrix has translation entries (0,3) = 0, (1,3) = 0 and
(2,3) = kInitialZ, for every field-of-view tangent t and aspect ratio a and
independently of the rotation submatrix (hence in particular at identity
device orientation, user rotation 0 and user scale 1). -/
theorem c7_identity_translation (t a : ℚ) (uninit : Matrix4) (rot : ℕ → ℕ → ℚ) :
    generateEigenModelMatrix uninit (generateAnchorVector t a ⟨1/2, 1/2, 1, 1⟩) rot 0 3 = 0
    ∧ generateEigenModelMatrix uninit (generateAnchorVector t a ⟨1/2, 1/2, 1, 1⟩) rot 1 3 = 0
    ∧ generateEigenModelMatrix uninit (generateAnchorVector t a ⟨1/2, 1/2, 1, 1⟩) rot 2 3
        = kInitialZ := by
  refine ⟨?_, ?_, ?_⟩
  · simp only [generateEigenModelMatrix, generateAnchorVector]
    norm_num
  · simp only [generateEigenModelMatrix, generateAnchorVector]
    norm_num
  · simp only [generateEigenModelMatrix, generateAnchorVector, kInitialZ]
    norm_num

/-- Claim C8: GenerateEigenModelMatrix writes the rotation-scale product
into the top-left 3x3 block, the translation into entries (0,3), (1,3),
(2,3) and 1.0 into (3,3), but never writes entries (3,0), (3,1), (3,2) of
the default-constructed (uninitialized) Eigen matrix: with uninitialized
memory holding 5, the bottom row is (5, 5, 5, 1), not (0, 0, 0, 1). -/
theorem c8_model_matrix_bottom_row :
    (generateEigenModelMatrix (fun _ _ => 5) ⟨1, 2, 3⟩ (fun i j => if i = j then 1 else 0) 3 0 = 5)
    ∧ (generateEigenModelMatrix (fun _ _ => 5) ⟨1, 2, 3⟩ (fun i j => if i = j then 1 else 0) 3 1 = 5)
    ∧ (generateEigenModelMatrix (fun _ _ => 5) ⟨1, 2, 3⟩ (fun i j => if i = j then 1 else 0) 3 2 = 5)
    ∧ (generateEigenModelMatrix (fun _ _ => 5) ⟨1, 2, 3⟩ (fun i j => if i = j then 1 else 0) 3 3 = 1)
    ∧ (generateEigenModelMatrix (fun _ _ => 5) ⟨1, 2, 3⟩ (fun i j => if i = j then 1 else 0) 0 3 = 1)
    ∧ (generateEigenModelMatrix (fun _ _ => 5) ⟨1, 2, 3⟩ (fun i j => if i = j then 1 else 0) 1 3 = 2)
    ∧ (generateEigenModelMatrix (fun _ _ => 5) ⟨1, 2, 3⟩ (fun i j => if i = j then 1 else 0) 2 3 = 3)
    ∧ (generateEigenModelMatrix (fun _ _ => 5) ⟨1, 2, 3⟩ (fun i j => if i = j then 1 else 0) 0 0 = 1)
    ∧ (generateEigenModelMatrix (fun _ _ => 5) ⟨1, 2, 3⟩ (fun i j => if i = j then 1 else 0) 0 1 = 0)
    ∧ ¬(generateEigenModelMatrix (fun _ _ => 5) ⟨1, 2, 3⟩ (fun i j => if i = j then 1 else 0) 3 0 = 0) := by
  norm_num [generateEigenModelMatrix]

/-- Claim C9: shrinking the width of the tracker-feedback box matched by a
sticker (everything else unchanged) strictly increases that sticker scale
factor kBoxEdgeSize / width, while every other sticker gets an identical
result. -/
theorem c9_scale_monotonicity (s i : ℤ) (prev : List Anchor)
    (l1 l2 : List TimedBox) (b c : TimedBox) (a : Anchor)
    (hb : b.id = i) (hc : c.id = i)
    (hl1 : ∀ x ∈ l1, x.id ≠ i)
    (hpos : 0 < c.right - c.left)
    (hlt : c.right - c.left < b.right - b.left)
    (hs : s ≠ i) :
    (a.sticker_id = i →
        ((processAnchor s (l1 ++ b :: l2) prev a).anchor).z
          < ((processAnchor s (l1 ++ c :: l2) prev a).anchor).z)
    ∧ (a.sticker_id ≠ i →
        processAnchor s (l1 ++ c :: l2) prev a = processAnchor s (l1 ++ b :: l2) prev a) := by
  constructor
  · intro hai
    have hsa : s ≠ a.sticker_id := by rw [hai]; exact hs
    have hfb : findBox (l1 ++ b :: l2) a.sticker_id = some b := by
      rw [hai]; exact findBox_append_first hl1 hb
    have hfc : findBox (l1 ++ c :: l2) a.sticker_id = some c := by
      rw [hai]; exact findBox_append_first hl1 hc
    simp only [processAnchor, if_neg hsa, hfb, hfc]
    exact div_lt_div_of_pos_left (by norm_num [kBoxEdgeSize]) hpos hlt
  · intro hai
    by_cases hsa : s = a.sticker_id
    · simp [processAnchor, hsa]
    · have hcong : findBox (l1 ++ c :: l2) a.sticker_id = findBox (l1 ++ b :: l2) a.sticker_id :=
        findBox_append_congr hc hb hai
      unfold processAnchor
      rw [if_neg hsa, if_neg hsa, hcong]

/-- Claim C9, witness: halving the width of the box of sticker 1 from 0.4
to 0.2 raises the scale factor from 0.5 to 1. -/
theorem c9_scale_monotonicity_witness :
    ((processAnchor (-1) [⟨0, 2/5, 0, 2/5, 1⟩] [] ⟨1/2, 1/2, 1, 1⟩).anchor).z
      < ((processAnchor (-1) [⟨0, 1/5, 0, 1/5, 1⟩] [] ⟨1/2, 1/2, 1, 1⟩).anchor).z :=
  (c9_scale_monotonicity (-1) 1 [] [] [] ⟨0, 2/5, 0, 2/5, 1⟩ ⟨0, 1/5, 0, 1/5, 1⟩
      ⟨1/2, 1/2, 1, 1⟩ rfl rfl (by simp) (by norm_num) (by norm_num) (by decide)).1 rfl

/-- Claim C10: the subgraph-variant frame outputs exactly one anchor for
each previous-frame anchor whose id also occurs in the current input list,
in previous-list order; a first-appearance id yields no output anchor and
no start box that frame, and (the state update storing the raw current
input as the next previous list) it is emitted from the following frame
on. -/
theorem c10_subgraph_intersection (boxes boxes2 : List TimedBox)
    (prev current current2 : List Anchor) (f : ℤ)
    (hf : ∀ p ∈ prev, p.sticker_id ≠ f) :
    ((subgraphProcess boxes prev current).anchors.map Anchor.sticker_id
        = (prev.filter (fun p => anchorExists current p.sticker_id)).map Anchor.sticker_id)
    ∧ (∀ b ∈ (subgraphProcess boxes prev current).startBoxes, ∃ p ∈ prev, b.id = p.sticker_id)
    ∧ (∀ x ∈ (subgraphProcess boxes prev current).anchors, x.sticker_id ≠ f)
    ∧ (∀ b ∈ (subgraphProcess boxes prev current).startBoxes, b.id ≠ f)
    ∧ (∀ c1 ∈ current, c1.sticker_id = f → anchorExists current2 f = true →
        f ∈ (subgraphProcess boxes2 current current2).anchors.map Anchor.sticker_id) := by
  have hids : (subgraphProcess boxes prev current).anchors.map Anchor.sticker_id
      = (prev.filter (fun p => anchorExists current p.sticker_id)).map Anchor.sticker_id :=
    subgraphProcessPrev_ids boxes current prev
  have hboxes : ∀ b ∈ (subgraphProcess boxes prev current).startBoxes,
      ∃ p ∈ prev, b.id = p.sticker_id := fun b hb => subgraphProcessPrev_box_ids hb
  refine ⟨hids, hboxes, ?_, ?_, ?_⟩
  · intro x hx
    have hmem : x.sticker_id ∈ (subgraphProcess boxes prev current).anchors.map Anchor.sticker_id :=
      List.mem_map_of_mem _ hx
    rw [hids] at hmem
    rcases List.mem_map.mp hmem with ⟨p, hpf, hpx⟩
    have hp : p ∈ prev := (List.mem_filter.mp hpf).1
    rw [← hpx]
    exact hf p hp
  · intro b hb
    rcases hboxes b hb with ⟨p, hp, hbp⟩
    rw [hbp]
    exact hf p hp
  · intro c1 hc1 hcf hex
    rw [show (subgraphProcess boxes2 current current2).anchors.map Anchor.sticker_id = _ from
      subgraphProcessPrev_ids boxes2 current2 current]
    refine List.mem_map.mpr ⟨c1, ?_, hcf⟩
    exact List.mem_filter.mpr ⟨hc1, by rw [hcf]; exact hex⟩

/-- Claim C10, witness: sticker 7 present in the frame-one input and again
in frame two is emitted in frame two (the first frame having stored the
input as the previous list). -/
theorem c10_subgraph_intersection_witness :
    (7 : ℤ) ∈ (subgraphProcess [] [⟨1/4, 1/4, 1, 7⟩] [⟨1/4, 1/4, 1, 7⟩]).anchors.map
      Anchor.sticker_id :=
  (c10_subgraph_intersection [] [] [] [⟨1/4, 1/4, 1, 7⟩] [⟨1/4, 1/4, 1, 7⟩] 7 (by simp)).2.2.2.2
    ⟨1/4, 1/4, 1, 7⟩ (by simp) rfl (by simp [anchorExists])

end InstantMotionTracking
